import Mathlib

/-!
Shallow embedding of the coppersplice circuit-allocation core.

Strings are embedded as `List Char` (`Str`); the JavaScript string
operations used by the source (`split`, `trim`, `parseInt`,
`String.prototype.match` against the two regexes that occur) are
modelled explicitly below.  NaN results of `parseInt` are modelled as
`Option Int` with `none` for NaN; comparisons against NaN are false,
mirroring JS semantics.
-/

namespace Coppersplice

abbrev Str := List Char

/-- Whitespace class used by JS `trim` / `\s` (ASCII portion). -/
def isSpaceChar (c : Char) : Bool :=
  c = ' ' || c = '\t' || c = '\n' || c = '\r' || c = '\x0b' || c = '\x0c'

/-- JS `String.prototype.trim`. -/
def jsTrim (s : Str) : Str :=
  ((s.dropWhile isSpaceChar).reverse.dropWhile isSpaceChar).reverse

/-- JS `String.prototype.split(sep)` with a one-character separator:
splits on every occurrence, keeping empty chunks; `"".split(sep) = [""]`. -/
def splitOnChar (sep : Char) : Str → List Str
  | [] => [[]]
  | c :: cs =>
    if c = sep then [] :: splitOnChar sep cs
    else
      match splitOnChar sep cs with
      | [] => [[c]]
      | t :: ts => (c :: t) :: ts

mutual

/-- Helper for `splitWs`: accumulates the current chunk (reversed). -/
def splitWsGo : Str → Str → List Str
  | [], acc => [acc.reverse]
  | c :: cs, acc =>
    if isSpaceChar c then acc.reverse :: splitWsSkip cs
    else splitWsGo cs (c :: acc)

/-- Helper for `splitWs`: consumes the rest of a whitespace run. -/
def splitWsSkip : Str → List Str
  | [] => [[]]
  | c :: cs =>
    if isSpaceChar c then splitWsSkip cs
    else splitWsGo cs [c]

end

/-- JS `String.prototype.split(/\s+/)`: each maximal whitespace run is
one separator. -/
def splitWs (s : Str) : List Str := splitWsGo s []

/-- Decimal value of a digit string (JS `parseInt` on an all-digit string). -/
def digitsToNat (s : Str) : Nat :=
  s.foldl (fun n c => n * 10 + (c.toNat - 48)) 0

def allDigits (s : Str) : Bool := s.all Char.isDigit

def isHexDigitChar (c : Char) : Bool :=
  c.isDigit || ('a' ≤ c && c ≤ 'f') || ('A' ≤ c && c ≤ 'F')

def hexDigitVal (c : Char) : Nat :=
  if c.isDigit then c.toNat - 48
  else if 'a' ≤ c && c ≤ 'f' then c.toNat - 87
  else c.toNat - 55

def hexToNat (s : Str) : Nat :=
  s.foldl (fun n c => n * 16 + hexDigitVal c) 0

/-- Magnitude part of JS `parseInt(s)` with unspecified radix: an
optional `0x`/`0X` switches to hexadecimal, otherwise the maximal
leading run of decimal digits is taken; no digits means NaN (`none`). -/
def jsParseIntMag : Str → Option Nat
  | [] => none
  | [c] => if c.isDigit then some (digitsToNat [c]) else none
  | c0 :: c1 :: rest =>
    if c0 = '0' ∧ (c1 = 'x' ∨ c1 = 'X') then
      let h := rest.takeWhile isHexDigitChar
      if h = [] then none else some (hexToNat h)
    else
      let d := (c0 :: c1 :: rest).takeWhile Char.isDigit
      if d = [] then none else some (digitsToNat d)

/-- JS `parseInt(s)` (radix unspecified): skips leading whitespace,
reads an optional sign, then the magnitude; `none` models NaN. -/
def jsParseInt (s : Str) : Option Int :=
  match s.dropWhile isSpaceChar with
  | [] => none
  | c :: rest =>
    if c = '-' then (jsParseIntMag rest).map (fun n => -(n : Int))
    else if c = '+' then (jsParseIntMag rest).map (fun n => (n : Int))
    else (jsParseIntMag (c :: rest)).map (fun n => (n : Int))

/-- JS `x >= y` where either side may be NaN (`none`): NaN compares false. -/
def nanGe (x y : Option Int) : Bool :=
  match x, y with
  | some a, some b => b ≤ a
  | _, _ => false

/-- JS `x <= y` where either side may be NaN (`none`): NaN compares false. -/
def nanLe (x y : Option Int) : Bool :=
  match x, y with
  | some a, some b => a ≤ b
  | _, _ => false

/-! ## Functions from the shared schema module (src/unnamed/part_000) -/

/-- Source `getBinderNumber`: `Math.ceil(pairNumber / binderSize)` for
positive inputs. -/
def getBinderNumber (pairNumber : Nat) (binderSize : Nat := 25) : Nat :=
  (pairNumber + binderSize - 1) / binderSize

/-- Source `getPairPositionInBinder`: `(pairNumber - 1) % binderSize`,
a 0-based position within the binder. -/
def getPairPositionInBinder (pairNumber : Nat) (binderSize : Nat := 25) : Nat :=
  (pairNumber - 1) % binderSize

/-- Source `parseCircuitId`: matches the regex `(\d+)-(\d+)$` against the
identifier and returns `end - start + 1`; `none` models the thrown
`Invalid circuit ID format` error.  The regex match is realised by
scanning from the right: the second capture is the maximal all-digit
suffix, which must be preceded by `'-'`, itself preceded by a maximal
nonempty digit run forming the first capture. -/
def parseCircuitId (circuitId : Str) : Option Int :=
  let r := circuitId.reverse
  let d2 := r.takeWhile Char.isDigit
  if d2 = [] then none
  else
    match r.dropWhile Char.isDigit with
    | '-' :: r2 =>
      let d1 := r2.takeWhile Char.isDigit
      if d1 = [] then none
      else some ((digitsToNat d2.reverse : Int) - (digitsToNat d1.reverse : Int) + 1)
    | _ => none

/-- Source `parseCircuitIdParts`: splits on `','` (exactly two parts),
trims the first part into the prefix, and matches the trimmed second
part against `^(\d+)-(\d+)$`; `none` models the thrown format errors. -/
def parseCircuitIdParts (circuitId : Str) : Option (Str × Nat × Nat) :=
  match splitOnChar ',' circuitId with
  | [p0, r0] =>
    match splitOnChar '-' (jsTrim r0) with
    | [a, b] =>
      if a ≠ [] && b ≠ [] && allDigits a && allDigits b then
        some (jsTrim p0, digitsToNat a, digitsToNat b)
      else none
    | _ => none
  | _ => none

/-- Source `circuitIdsOverlap`: both identifiers must parse, the prefixes
must be equal, and the numeric ranges must intersect; any parse failure
is caught and yields `false`. -/
def circuitIdsOverlap (circuitId1 circuitId2 : Str) : Bool :=
  match parseCircuitIdParts circuitId1, parseCircuitIdParts circuitId2 with
  | some (p1, s1, e1), some (p2, s2, e2) =>
    if p1 ≠ p2 then false
    else s1 ≤ e2 && s2 ≤ e1
  | _, _ => false

/-! ## Normalization (src/unnamed/part_002) -/

/-- Source `normalizeCircuitId`: trims the input; a string containing a
comma is returned as-is; otherwise the trimmed string is split on
whitespace runs, and with at least three parts the last two become the
range while the rest are concatenated into the prefix. -/
def normalizeCircuitId (input : Str) : Str :=
  if (jsTrim input).contains ',' then jsTrim input
  else
    match (splitWs (jsTrim input)).reverse with
    | rEnd :: rStart :: p1 :: ps =>
      ((p1 :: ps).reverse.flatten) ++ [','] ++ rStart ++ ['-'] ++ rEnd
    | _ => jsTrim input

/-! ## Data model (src/unnamed/part_000 tables) -/

inductive CableType where
  | Feed
  | Distribution
deriving DecidableEq, Repr

/-- Row of the `cables` table. -/
structure Cable where
  id : Str
  name : Str
  fiberCount : Int
  ribbonSize : Int
  type : CableType
deriving DecidableEq, Repr

/-- Row of the `circuits` table.  `isSpliced` models the 0/1 integer
column as a Bool; the three `feed*` columns are nullable. -/
structure Circuit where
  id : Str
  cableId : Str
  circuitId : Str
  position : Nat
  fiberStart : Int
  fiberEnd : Int
  isSpliced : Bool
  feedCableId : Option Str
  feedFiberStart : Option Int
  feedFiberEnd : Option Int
deriving DecidableEq, Repr

/-! ## CircuitManagement.tsx -/

/-- Outcome of `handleCheckboxChange`: either one of the early-return
error toasts, the mutation payload sent to the toggle endpoint for the
matched case, or the plain toggle of the else-branch.  `none` in the
`Option Int` fields models JS `NaN`; the mutation payload mirrors the
object passed to `toggleSplicedMutation.mutate`. -/
inductive ToggleAction where
  | invalidFormat
  | invalidRangeFormat
  | noMatchingFeed (pfx : Str) (dStart dEnd : Option Int)
  | spliceMutate (circuitId : Str) (feedCableId : Option Str)
      (feedFiberStart feedFiberEnd : Option Int)
  | plainToggle (circuitId : Str)
deriving DecidableEq, Repr

/-- Predicate of the `allCircuits.find(...)` callback inside
`handleCheckboxChange`: the candidate's owning cable must have type
`Feed`, its identifier must split into two comma parts whose trimmed
prefix equals the distribution prefix, its trimmed range must split
into two dash parts, and `distStart >= feedStart && distEnd <= feedEnd`
must hold under JS NaN comparison semantics. -/
def feedMatchPred (allCables : List Cable) (dPfx : Str)
    (dStart dEnd : Option Int) (c : Circuit) : Bool :=
  match allCables.find? (fun cb => cb.id == c.cableId) with
  | none => false
  | some feedCable =>
    if feedCable.type ≠ CableType.Feed then false
    else
      match splitOnChar ',' c.circuitId with
      | [fp, fr] =>
        if jsTrim fp ≠ dPfx then false
        else
          match splitOnChar '-' (jsTrim fr) with
          | [fa, fb] => nanGe dStart (jsParseInt fa) && nanLe dEnd (jsParseInt fb)
          | _ => false
      | _ => false

/-- The `allCircuits.find(...)` call of `handleCheckboxChange`. -/
def findMatchingFeedCircuit (allCables : List Cable) (allCircuits : List Circuit)
    (dPfx : Str) (dStart dEnd : Option Int) : Option Circuit :=
  allCircuits.find? (feedMatchPred allCables dPfx dStart dEnd)

/-- NaN-propagating subtraction used to model `distStart - feedStart`. -/
def nanSub (x y : Option Int) : Option Int :=
  match x, y with
  | some a, some b => some (a - b)
  | _, _ => none

/-- NaN-propagating addition used to model
`matchingFeedCircuit.fiberStart + offset`. -/
def nanAdd (x y : Option Int) : Option Int :=
  match x, y with
  | some a, some b => some (a + b)
  | _, _ => none

/-- Re-parse of the matched feed circuit's range performed after the
`find` succeeds (`feedParts[1].trim().split('-')` followed by two
`parseInt` calls, without length checks). -/
def reparseFeedRange (m : Circuit) : Option Int × Option Int :=
  match splitOnChar ',' m.circuitId with
  | [_, fr] =>
    match splitOnChar '-' (jsTrim fr) with
    | [fa, fb] => (jsParseInt fa, jsParseInt fb)
    | _ => (none, none)
  | _ => (none, none)

/-- Source `handleCheckboxChange` (CircuitManagement.tsx lines 149-226),
with toast-and-return paths and the mutation call turned into the
`ToggleAction` outcome. -/
def handleCheckboxChange (allCables : List Cable) (allCircuits : List Circuit)
    (cable : Cable) (circuit : Circuit) (checked : Bool) : ToggleAction :=
  if cable.type = CableType.Distribution ∧ checked then
    match splitOnChar ',' circuit.circuitId with
    | [p0, r0] =>
      let dPfx := jsTrim p0
      match splitOnChar '-' (jsTrim r0) with
      | [a0, b0] =>
        let dStart := jsParseInt a0
        let dEnd := jsParseInt b0
        match findMatchingFeedCircuit allCables allCircuits dPfx dStart dEnd with
        | none => ToggleAction.noMatchingFeed dPfx dStart dEnd
        | some m =>
          let feedCable := allCables.find? (fun c => c.id == m.cableId)
          let fsfe := reparseFeedRange m
          let offsetFromFeedStart := nanSub dStart fsfe.1
          let offsetFromFeedEnd := nanSub dEnd fsfe.1
          ToggleAction.spliceMutate circuit.id (feedCable.map Cable.id)
            (nanAdd (some m.fiberStart) offsetFromFeedStart)
            (nanAdd (some m.fiberStart) offsetFromFeedEnd)
      | _ => ToggleAction.invalidRangeFormat
    | _ => ToggleAction.invalidFormat
  else ToggleAction.plainToggle circuit.id

/-- Validation outcome of `parseAndCheckCircuitId`; the payload of
`overlapError` is the existing circuit named in the error message. -/
inductive ValidationError where
  | formatError
  | rangeFormatError
  | nanError
  | overlapError (conflicting : Circuit)
deriving DecidableEq, Repr

/-- Loop-body predicate of `parseAndCheckCircuitId`: an existing circuit
conflicts when it is not the excluded one, its identifier splits into
two comma parts and two dash parts with non-NaN `parseInt` values, its
trimmed prefix equals the new prefix, and
`newStart <= existingEnd && newEnd >= existingStart`. -/
def existingConflicts (newPfx : Str) (newStart newEnd : Int)
    (excludeCircuitId : Option Str) (c : Circuit) : Bool :=
  let skipped :=
    match excludeCircuitId with
    | some e => !e.isEmpty && c.id == e
    | none => false
  if skipped then false
  else
    match splitOnChar ',' c.circuitId with
    | [p0, r0] =>
      match splitOnChar '-' (jsTrim r0) with
      | [a, b] =>
        match jsParseInt a, jsParseInt b with
        | some existingStart, some existingEnd =>
          jsTrim p0 == newPfx && newStart ≤ existingEnd && existingStart ≤ newEnd
        | _, _ => false
      | _ => false
    | _ => false

/-- Source `parseAndCheckCircuitId` (CircuitManagement.tsx lines
238-287): `none` is the `{ valid: true }` result, `some err` an invalid
result. -/
def parseAndCheckCircuitId (circuits : List Circuit) (newCircuitId : Str)
    (excludeCircuitId : Option Str) : Option ValidationError :=
  match splitOnChar ',' newCircuitId with
  | [p0, r0] =>
    let newPfx := jsTrim p0
    match splitOnChar '-' (jsTrim r0) with
    | [a, b] =>
      match jsParseInt a, jsParseInt b with
      | some newStart, some newEnd =>
        match circuits.find? (existingConflicts newPfx newStart newEnd excludeCircuitId) with
        | some c => some (ValidationError.overlapError c)
        | none => none
      | _, _ => some ValidationError.nanError
    | _ => some ValidationError.rangeFormatError
  | _ => some ValidationError.formatError

/-- Source `handleAddCircuit`: empty input or failed validation issues
no mutation (`none`); otherwise the create payload
`{ cableId, circuitId: circuitId.trim() }` is sent. -/
def handleAddCircuit (circuits : List Circuit) (cableId : Str)
    (input : Str) : Option (Str × Str) :=
  if jsTrim input = [] then none
  else
    match parseAndCheckCircuitId circuits (jsTrim input) none with
    | some _ => none
    | none => some (cableId, jsTrim input)

/-- Source `handleSaveEdit`: empty input or failed validation (with the
edited circuit excluded) issues no mutation; otherwise the update
payload `{ id, circuitId }` (untrimmed value) is sent. -/
def handleSaveEdit (circuits : List Circuit) (circuitId : Str)
    (editingValue : Str) : Option (Str × Str) :=
  if jsTrim editingValue = [] then none
  else
    match parseAndCheckCircuitId circuits (jsTrim editingValue) (some circuitId) with
    | some _ => none
    | none => some (circuitId, editingValue)

/-- Rendered shape of `getBinderAndPairDisplay`: either a list of
per-binder segments `(binder, startInBinder, endInBinder)` or the
compact `B{start}-B{end}` display emitted when a multi-binder range
starts and ends exactly on binder boundaries. -/
inductive BinderDisplay where
  | segments (segs : List (Nat × Nat × Nat))
  | binderRange (startBinder endBinder : Nat)
deriving DecidableEq, Repr

/-- Source `getBinderAndPairDisplay` (CircuitManagement.tsx lines
385-515) with the JSX stripped down to the segment data it renders.
Both arms of the source's inner `startBinder === endBinder - 1`
conditional render the same compact binder range, so they collapse to
one `binderRange` case here. -/
def getBinderAndPairDisplay (pairStart pairEnd binderSize : Nat) : BinderDisplay :=
  let startBinder := getBinderNumber pairStart binderSize
  let endBinder := getBinderNumber pairEnd binderSize
  let startPairInBinder := (pairStart - 1) % binderSize + 1
  let endPairInBinder := (pairEnd - 1) % binderSize + 1
  if startBinder = endBinder then
    BinderDisplay.segments [(startBinder, startPairInBinder, endPairInBinder)]
  else
    let startsWithPartialBinder := startPairInBinder ≠ 1
    let endsWithPartialBinder := endPairInBinder ≠ binderSize
    if !startsWithPartialBinder && !endsWithPartialBinder then
      BinderDisplay.binderRange startBinder endBinder
    else
      let firstFullBinder := if startsWithPartialBinder then startBinder + 1 else startBinder
      let lastFullBinder := if endsWithPartialBinder then endBinder - 1 else endBinder
      BinderDisplay.segments
        ((if startsWithPartialBinder then [(startBinder, startPairInBinder, binderSize)] else []) ++
         (List.range' firstFullBinder (lastFullBinder + 1 - firstFullBinder)).map
           (fun r => (r, 1, binderSize)) ++
         (if endsWithPartialBinder then [(endBinder, 1, endPairInBinder)] else []))

/-! ## Spec-modelled server-side components

The Express routes that implement circuit creation, deletion, move,
identifier update and the toggle-spliced endpoint (PositionAllocator
and ConflictDetector in the spec's terms) are not part of the source
tree under verification; they are modelled here from the spec's §4.2,
§4.5 and §7.  The circuit list of one cable is represented as the list
of identifier strings in position order (position = list index, hence
dense and unique by construction, as §9 prescribes). -/

/-- Pair count the allocator derives from an identifier, using the
repository's own `parseCircuitId`; the fallback for an unparsable
identifier is irrelevant under the well-formedness hypotheses of the
theorems below. -/
def pairCountOf (circuitId : Str) : Int :=
  (parseCircuitId circuitId).getD 0

/-- Modelled from the spec: `PositionAllocator` walking the order from
a given next free pair, assigning each circuit a span of
`pairCountOf` pairs immediately after its predecessor. -/
def allocateFrom (next : Int) : List Str → List (Str × Int × Int)
  | [] => []
  | circuitId :: rest =>
    let k := pairCountOf circuitId
    (circuitId, next, next + k - 1) :: allocateFrom (next + k) rest

/-- Modelled from the spec: `PositionAllocator` for a whole cable; the
first circuit starts at pair 1. -/
def allocate (ids : List Str) : List (Str × Int × Int) :=
  allocateFrom 1 ids

/-- Structural mutations of one cable's circuit list (§4.2): insertion
appends at the end, deletion shifts later positions down, a move swaps
with the adjacent circuit, an edit replaces the identifier in place. -/
inductive CircuitOp where
  | add (circuitId : Str)
  | delete (i : Nat)
  | moveUp (i : Nat)
  | moveDown (i : Nat)
  | edit (i : Nat) (circuitId : Str)
deriving DecidableEq, Repr

/-- Swap the elements at indices `i` and `i + 1`; out-of-range indices
leave the list unchanged (the spec's boundary-move no-op). -/
def swapAdj : List Str → Nat → List Str
  | a :: b :: rest, 0 => b :: a :: rest
  | a :: rest, Nat.succ j => a :: swapAdj rest j
  | l, _ => l

/-- Modelled from the spec: effect of one structural mutation on the
identifier list (the physical ranges are recomputed wholesale by
`allocate` afterwards, so only the identifiers are state). -/
def applyCircuitOp (ids : List Str) : CircuitOp → List Str
  | CircuitOp.add circuitId => ids ++ [circuitId]
  | CircuitOp.delete i => ids.eraseIdx i
  | CircuitOp.moveUp i => if i = 0 then ids else swapAdj ids (i - 1)
  | CircuitOp.moveDown i => swapAdj ids i
  | CircuitOp.edit i circuitId => ids.set i circuitId

/-- Identifiers introduced by an operation. -/
def opIds : CircuitOp → List Str
  | CircuitOp.add circuitId => [circuitId]
  | CircuitOp.edit _ circuitId => [circuitId]
  | _ => []

/-- An identifier whose repository-derived pair count exists and is
positive. -/
def goodCount (circuitId : Str) : Bool :=
  match parseCircuitId circuitId with
  | some k => 1 ≤ k
  | none => false

/-- Chain predicate: the allocated entries start exactly at `next`,
each entry's span length is the identifier's derived pair count, and
each subsequent entry starts immediately after the previous end. -/
def contiguousFrom : Int → List (Str × Int × Int) → Bool
  | _, [] => true
  | next, (circuitId, s, e) :: rest =>
    s == next && e == s + pairCountOf circuitId - 1 && contiguousFrom (e + 1) rest

/-- Errors of the spec-modelled toggle-spliced endpoint (§7). -/
inductive ToggleError where
  | invalidFormat
  | invalidRangeFormat
  | noMatchingFeedCircuit (pfx : Str) (dStart dEnd : Option Int)
  | feedPairConflict (conflicting : Circuit)
deriving DecidableEq, Repr

/-- Modelled from the spec: `ConflictDetector` test for one existing
circuit — it references the same feed cable and its stored
`(feedFiberStart, feedFiberEnd)` intersects the candidate range
(`start <= existingEnd && existingStart <= end`). -/
def conflictsWith (feedCableId : Str) (s e : Int) (c : Circuit) : Bool :=
  c.feedCableId == some feedCableId &&
    match c.feedFiberStart, c.feedFiberEnd with
    | some es, some ee => s ≤ ee && es ≤ e
    | _, _ => false

/-- Modelled from the spec: persisting the splice link on the toggled
circuit (§4.4 side effect on success). -/
def persistSplice (allCircuits : List Circuit) (circuitId feedCableId : Str)
    (s e : Int) : List Circuit :=
  allCircuits.map fun c =>
    if c.id = circuitId then
      { c with isSpliced := true, feedCableId := some feedCableId,
               feedFiberStart := some s, feedFiberEnd := some e }
    else c

/-- Modelled from the spec: the toggle-to-spliced operation end to end —
the client-side matcher (`handleCheckboxChange`, from the source)
derives the candidate feed pair range, then the ConflictDetector runs
on the derived range against all other circuits referencing the same
feed cable, and only a conflict-free candidate is persisted.  An error
leaves the circuit list (and hence the circuit's `isSpliced` flag)
untouched.  The final fallback arm is unreachable for actions produced
by a successful match, where cable id and range are always defined. -/
def toggleSplicedChecked (allCables : List Cable) (allCircuits : List Circuit)
    (cable : Cable) (circuit : Circuit) : Except ToggleError (List Circuit) :=
  match handleCheckboxChange allCables allCircuits cable circuit true with
  | ToggleAction.invalidFormat => Except.error ToggleError.invalidFormat
  | ToggleAction.invalidRangeFormat => Except.error ToggleError.invalidRangeFormat
  | ToggleAction.noMatchingFeed pfx s e =>
    Except.error (ToggleError.noMatchingFeedCircuit pfx s e)
  | ToggleAction.plainToggle cid =>
    Except.ok (allCircuits.map fun c =>
      if c.id = cid then { c with isSpliced := !c.isSpliced } else c)
  | ToggleAction.spliceMutate cid feedCableId fps fpe =>
    match feedCableId, fps, fpe with
    | some fcid, some s, some e =>
      match allCircuits.find? (fun c => !(c.id == cid) && conflictsWith fcid s e c) with
      | some c => Except.error (ToggleError.feedPairConflict c)
      | none => Except.ok (persistSplice allCircuits cid fcid s e)
    | _, _, _ => Except.error ToggleError.invalidRangeFormat

/-! ## Spec-side reference definitions

These restate the spec's words, to be compared with the embedded source
functions in the refinement theorems below. -/

/-- Feed-candidate predicate as §4.4 words it: the owning cable has
role `Feed`, the identifier's parsed prefix equals the distribution
prefix, and the distribution numeric range is contained in the feed
numeric range. -/
def specFeedPred (allCables : List Cable) (dPfx : Str) (dStart dEnd : Nat)
    (c : Circuit) : Bool :=
  (match allCables.find? (fun cb => cb.id == c.cableId) with
   | some cb => cb.type = CableType.Feed
   | none => false) &&
  (match parseCircuitIdParts c.circuitId with
   | some (fp, fs, fe) => fp == dPfx && fs ≤ dStart && dEnd ≤ fe
   | none => false)

/-- Per-binder segmentation as §4.3 words it: one segment for every
binder from the start binder through the end binder, the first segment
starting at the start pair's position in its binder, the last ending at
the end pair's position, and every other boundary at the binder edge. -/
def specSegments (pairStart pairEnd binderSize : Nat) : List (Nat × Nat × Nat) :=
  let startBinder := getBinderNumber pairStart binderSize
  let endBinder := getBinderNumber pairEnd binderSize
  (List.range' startBinder (endBinder + 1 - startBinder)).map fun b =>
    (b, if b = startBinder then (pairStart - 1) % binderSize + 1 else 1,
     if b = endBinder then (pairEnd - 1) % binderSize + 1 else binderSize)

/-! ## Helper lemmas -/

theorem dropWhile_eq_self_of_all {p : Char → Bool} {l : Str}
    (h : ∀ c ∈ l, p c = false) : l.dropWhile p = l := by
  cases l with
  | nil => rfl
  | cons a as =>
    simp [List.dropWhile_cons, h a (by simp)]

theorem jsTrim_eq_self_of_all {l : Str}
    (h : ∀ c ∈ l, isSpaceChar c = false) : jsTrim l = l := by
  unfold jsTrim
  rw [dropWhile_eq_self_of_all h, dropWhile_eq_self_of_all, List.reverse_reverse]
  intro c hc
  exact h c (List.mem_reverse.mp hc)

theorem dropWhile_idem {p : Char → Bool} (l : Str) :
    (l.dropWhile p).dropWhile p = l.dropWhile p := by
  induction l with
  | nil => rfl
  | cons a as ih =>
    by_cases h : p a
    · simp [List.dropWhile_cons, h, ih]
    · simp [List.dropWhile_cons, h]

theorem dropWhile_append_last {p : Char → Bool} {c : Char} (hc : p c = false)
    (l : Str) : ∃ t, (l ++ [c]).dropWhile p = t ++ [c] := by
  induction l with
  | nil => exact ⟨[], by simp [List.dropWhile_cons, hc]⟩
  | cons a as ih =>
    by_cases h : p a
    · simpa [List.dropWhile_cons, h] using ih
    · exact ⟨a :: as, by simp [List.dropWhile_cons, h]⟩

theorem jsTrim_idem (s : Str) : jsTrim (jsTrim s) = jsTrim s := by
  unfold jsTrim
  cases hu : (s.dropWhile isSpaceChar) with
  | nil => simp
  | cons c u =>
    have hc : isSpaceChar c = false := by
      have := List.head?_dropWhile_not isSpaceChar s
      rw [hu] at this
      simpa using this
    obtain ⟨t, ht⟩ := dropWhile_append_last (l := u.reverse) hc
    have hrev : (c :: u).reverse = u.reverse ++ [c] := by simp
    rw [hrev, ht]
    have : (t ++ [c]).reverse = c :: t.reverse := by simp
    rw [this, List.dropWhile_cons, if_neg (by simp [hc])]
    have : (c :: t.reverse).reverse = t ++ [c] := by simp
    rw [this, ← ht, dropWhile_idem, ht]
    simp

theorem isDigit_not_space {c : Char} (h : c.isDigit = true) :
    isSpaceChar c = false := by
  unfold isSpaceChar
  simp only [Bool.or_eq_false_iff, decide_eq_false_iff_not]
  refine ⟨⟨⟨⟨⟨?_, ?_⟩, ?_⟩, ?_⟩, ?_⟩, ?_⟩ <;>
    (intro he; rw [he] at h; exact absurd h (by decide))

theorem jsParseIntMag_digits {s : Str} (hd : allDigits s = true) (hne : s ≠ []) :
    jsParseIntMag s = some (digitsToNat s) := by
  cases s with
  | nil => exact absurd rfl hne
  | cons c0 t =>
    have hmem : ∀ x ∈ c0 :: t, x.isDigit = true := List.all_eq_true.mp hd
    cases t with
    | nil =>
      simp [jsParseIntMag, hmem c0 (by simp)]
    | cons c1 rest =>
      have hc1 : c1.isDigit = true := hmem c1 (by simp)
      have hx : ¬(c0 = '0' ∧ (c1 = 'x' ∨ c1 = 'X')) := by
        rintro ⟨-, h | h⟩ <;> (rw [h] at hc1; exact absurd hc1 (by decide))
      have hall : (c0 :: c1 :: rest).takeWhile Char.isDigit = c0 :: c1 :: rest :=
        List.takeWhile_eq_self_iff.mpr hmem
      simp [jsParseIntMag, hx, hall]

theorem jsParseInt_digits {s : Str} (hd : allDigits s = true) (hne : s ≠ []) :
    jsParseInt s = some ((digitsToNat s : Nat) : Int) := by
  cases s with
  | nil => exact absurd rfl hne
  | cons c0 t =>
    have hmem : ∀ x ∈ c0 :: t, x.isDigit = true := List.all_eq_true.mp hd
    have hc0 : c0.isDigit = true := hmem c0 (by simp)
    have hnosp : (c0 :: t).dropWhile isSpaceChar = c0 :: t := by
      rw [List.dropWhile_cons, if_neg (by simp [isDigit_not_space hc0])]
    have hminus : c0 ≠ '-' := by
      intro h; rw [h] at hc0; exact absurd hc0 (by decide)
    have hplus : c0 ≠ '+' := by
      intro h; rw [h] at hc0; exact absurd hc0 (by decide)
    unfold jsParseInt
    rw [hnosp]
    simp [hminus, hplus, jsParseIntMag_digits hd hne]

theorem find?_congr {α : Type} {p q : α → Bool} {l : List α}
    (h : ∀ a ∈ l, p a = q a) : l.find? p = l.find? q := by
  induction l with
  | nil => rfl
  | cons a t ih =>
    rw [List.find?_cons, List.find?_cons, h a (by simp)]
    cases q a
    · exact ih fun x hx => h x (by simp [hx])
    · rfl

theorem splitOnChar_ne_nil (sep : Char) (s : Str) : splitOnChar sep s ≠ [] := by
  induction s with
  | nil => simp [splitOnChar]
  | cons c cs ih =>
    unfold splitOnChar
    by_cases h : c = sep
    · simp [h]
    · simp only [h, if_false]
      cases hs : splitOnChar sep cs with
      | nil => exact absurd hs ih
      | cons t ts => simp

theorem splitOnChar_singleton {sep : Char} {s a : Str} :
    splitOnChar sep s = [a] ↔ s = a ∧ sep ∉ a := by
  induction s generalizing a with
  | nil =>
    simp only [splitOnChar]
    constructor
    · intro h
      injection h with h1 h2
      exact ⟨h1, by rw [← h1]; simp⟩
    · rintro ⟨h1, -⟩
      rw [← h1]
  | cons c cs ih =>
    simp only [splitOnChar]
    by_cases h : c = sep
    · subst h
      simp only [if_pos rfl]
      constructor
      · intro hcontra
        injection hcontra with h1 h2
        exact absurd h2 (splitOnChar_ne_nil c cs)
      · rintro ⟨h1, h2⟩
        exact absurd (h1 ▸ List.mem_cons_self c cs) h2
    · simp only [if_neg h]
      cases hs : splitOnChar sep cs with
      | nil => exact absurd hs (splitOnChar_ne_nil sep cs)
      | cons t ts =>
        constructor
        · intro he
          injection he with h1 h2
          subst h2
          obtain ⟨h3, h4⟩ := ih.mp hs
          subst h3
          refine ⟨h1, ?_⟩
          rw [← h1]
          simp only [List.mem_cons, not_or]
          exact ⟨fun hc => h hc.symm, h4⟩
        · rintro ⟨h1, h2⟩
          cases a with
          | nil => simp at h1
          | cons x a2 =>
            injection h1 with hx hcs
            subst hx
            have hsep : sep ∉ a2 := fun hm => h2 (List.mem_cons_of_mem _ hm)
            have hone : splitOnChar sep cs = [a2] := ih.mpr ⟨hcs, hsep⟩
            rw [hs] at hone
            injection hone with h3 h4
            rw [h3, h4]

theorem splitOnChar_pair {sep : Char} {s a b : Str} :
    splitOnChar sep s = [a, b] ↔ s = a ++ sep :: b ∧ sep ∉ a ∧ sep ∉ b := by
  induction s generalizing a with
  | nil =>
    simp only [splitOnChar]
    constructor
    · intro h
      injection h with h1 h2
      simp at h2
    · rintro ⟨h1, -⟩
      exact absurd h1 (by simp)
  | cons c cs ih =>
    simp only [splitOnChar]
    by_cases h : c = sep
    · subst h
      simp only [if_pos rfl]
      constructor
      · intro he
        injection he with h1 h2
        obtain ⟨h3, h4⟩ := splitOnChar_singleton.mp h2
        rw [← h1, h3]
        exact ⟨rfl, by simp, h4⟩
      · rintro ⟨h1, h2, h3⟩
        cases a with
        | nil =>
          simp only [List.nil_append] at h1
          injection h1 with h0 h4
          rw [splitOnChar_singleton.mpr ⟨h4, h3⟩]
          simp
        | cons x a2 =>
          injection h1 with hx h0
          exact absurd (hx ▸ List.mem_cons_self x a2) h2
    · simp only [if_neg h]
      cases hs : splitOnChar sep cs with
      | nil => exact absurd hs (splitOnChar_ne_nil sep cs)
      | cons t ts =>
        constructor
        · intro he
          injection he with h1 h2
          subst h2
          obtain ⟨h3, h4, h5⟩ := ih.mp hs
          rw [← h1, h3]
          refine ⟨rfl, ?_, h5⟩
          simp only [List.mem_cons, not_or]
          exact ⟨fun hc => h hc.symm, h4⟩
        · rintro ⟨h1, h2, h3⟩
          cases a with
          | nil =>
            simp only [List.nil_append] at h1
            injection h1 with hx h0
            exact absurd hx h
          | cons x a2 =>
            injection h1 with hx hcs
            subst hx
            have hsep : sep ∉ a2 := fun hm => h2 (List.mem_cons_of_mem _ hm)
            have hpair : splitOnChar sep cs = [a2, b] := ih.mpr ⟨hcs, hsep, h3⟩
            rw [hs] at hpair
            injection hpair with h4 h5
            rw [h4, h5]

theorem parseCircuitIdParts_some_iff {cid p : Str} {s e : Nat} :
    parseCircuitIdParts cid = some (p, s, e) ↔
    ∃ p0 r0 a b, splitOnChar ',' cid = [p0, r0] ∧ jsTrim p0 = p ∧
      splitOnChar '-' (jsTrim r0) = [a, b] ∧ a ≠ [] ∧ b ≠ [] ∧
      allDigits a = true ∧ allDigits b = true ∧
      digitsToNat a = s ∧ digitsToNat b = e := by
  constructor
  · intro h
    unfold parseCircuitIdParts at h
    split at h
    next p0 r0 heq =>
      split at h
      next a b heq2 =>
        split at h
        next hcond =>
          simp only [Bool.and_eq_true, decide_eq_true_eq] at hcond
          obtain ⟨⟨⟨ha, hb⟩, hda⟩, hdb⟩ := hcond
          simp only [Option.some.injEq, Prod.mk.injEq] at h
          exact ⟨p0, r0, a, b, heq, h.1, heq2, ha, hb, hda, hdb, h.2.1, h.2.2⟩
        next => exact absurd h (by simp)
      next => exact absurd h (by simp)
    next => exact absurd h (by simp)
  · rintro ⟨p0, r0, a, b, h1, h2, h3, ha, hb, hda, hdb, h5, h6⟩
    unfold parseCircuitIdParts
    rw [h1]
    simp [h3, ha, hb, hda, hdb, h2, h5, h6]

theorem parseCircuitIdParts_none_of_no_pair {cid : Str}
    (h : ∀ p0 r0, splitOnChar ',' cid ≠ [p0, r0]) :
    parseCircuitIdParts cid = none := by
  unfold parseCircuitIdParts
  split
  next p0 r0 heq => exact absurd heq (h p0 r0)
  next => rfl

theorem circuitIdsOverlap_iff {a b : Str} :
    circuitIdsOverlap a b = true ↔
    ∃ p s1 e1 s2 e2, parseCircuitIdParts a = some (p, s1, e1) ∧
      parseCircuitIdParts b = some (p, s2, e2) ∧ s1 ≤ e2 ∧ s2 ≤ e1 := by
  unfold circuitIdsOverlap
  cases h1 : parseCircuitIdParts a with
  | none => simp
  | some v =>
    obtain ⟨p1, s1, e1⟩ := v
    cases h2 : parseCircuitIdParts b with
    | none => simp
    | some w =>
      obtain ⟨p2, s2, e2⟩ := w
      dsimp only
      by_cases hp : p1 = p2
      · subst hp
        rw [if_neg (fun hc => hc rfl)]
        constructor
        · intro hx
          simp only [Bool.and_eq_true, decide_eq_true_eq] at hx
          exact ⟨p1, s1, e1, s2, e2, rfl, rfl, hx.1, hx.2⟩
        · rintro ⟨p, s1b, e1b, s2b, e2b, hA, hB, hle1, hle2⟩
          simp only [Option.some.injEq, Prod.mk.injEq] at hA hB
          obtain ⟨-, hs1, he1⟩ := hA
          obtain ⟨-, hs2, he2⟩ := hB
          subst hs1; subst he1; subst hs2; subst he2
          simp [hle1, hle2]
      · rw [if_pos hp]
        constructor
        · intro hfalse
          exact absurd hfalse (by simp)
        · rintro ⟨p, s1b, e1b, s2b, e2b, hA, hB, -, -⟩
          simp only [Option.some.injEq, Prod.mk.injEq] at hA hB
          exact absurd (hA.1.trans hB.1.symm) hp

theorem circuitIdsOverlap_comm (a b : Str) :
    circuitIdsOverlap a b = circuitIdsOverlap b a := by
  cases hx : circuitIdsOverlap a b with
  | true =>
    obtain ⟨p, s1, e1, s2, e2, h1, h2, l1, l2⟩ := circuitIdsOverlap_iff.mp hx
    exact (circuitIdsOverlap_iff.mpr ⟨p, s2, e2, s1, e1, h2, h1, l2, l1⟩).symm
  | false =>
    cases hy : circuitIdsOverlap b a with
    | false => rfl
    | true =>
      obtain ⟨p, s1, e1, s2, e2, h1, h2, l1, l2⟩ := circuitIdsOverlap_iff.mp hy
      have : circuitIdsOverlap a b = true :=
        circuitIdsOverlap_iff.mpr ⟨p, s2, e2, s1, e1, h2, h1, l2, l1⟩
      rw [hx] at this
      exact absurd this (by simp)

/-- C5: `circuitIdsOverlap` is true exactly when both identifiers parse,
the prefixes agree and the numeric ranges intersect; a prefix mismatch
or a parse failure on either side yields false; and the three spec
examples evaluate as stated. -/
theorem circuitIdsOverlap_characterization :
    (∀ a b : Str, circuitIdsOverlap a b = true ↔
      ∃ p s1 e1 s2 e2, parseCircuitIdParts a = some (p, s1, e1) ∧
        parseCircuitIdParts b = some (p, s2, e2) ∧ s1 ≤ e2 ∧ s2 ≤ e1) ∧
    (∀ a b pa sa ea pb sb eb, parseCircuitIdParts a = some (pa, sa, ea) →
      parseCircuitIdParts b = some (pb, sb, eb) → pa ≠ pb →
      circuitIdsOverlap a b = false) ∧
    (∀ a b : Str, parseCircuitIdParts a = none ∨ parseCircuitIdParts b = none →
      circuitIdsOverlap a b = false) ∧
    circuitIdsOverlap ("pon,1-8".data) ("pon,8-12".data) = true ∧
    circuitIdsOverlap ("pon,1-8".data) ("pon,9-12".data) = false ∧
    circuitIdsOverlap ("pon,1-8".data) ("lg,1-8".data) = false := by
  have hiff : ∀ a b : Str, circuitIdsOverlap a b = true ↔
      ∃ p s1 e1 s2 e2, parseCircuitIdParts a = some (p, s1, e1) ∧
        parseCircuitIdParts b = some (p, s2, e2) ∧ s1 ≤ e2 ∧ s2 ≤ e1 :=
    fun a b => circuitIdsOverlap_iff
  refine ⟨hiff, ?_, ?_, by decide, by decide, by decide⟩
  · intro a b pa sa ea pb sb eb hA hB hne
    cases hres : circuitIdsOverlap a b with
    | false => rfl
    | true =>
      obtain ⟨p, s1, e1, s2, e2, h1, h2, -, -⟩ := (hiff a b).mp hres
      rw [hA] at h1
      rw [hB] at h2
      simp only [Option.some.injEq, Prod.mk.injEq] at h1 h2
      exact absurd (h1.1.trans h2.1.symm) hne
  · intro a b hnone
    cases hres : circuitIdsOverlap a b with
    | false => rfl
    | true =>
      obtain ⟨p, s1, e1, s2, e2, h1, h2, -, -⟩ := (hiff a b).mp hres
      rcases hnone with h | h
      · rw [h] at h1; exact absurd h1 (by simp)
      · rw [h] at h2; exact absurd h2 (by simp)

/-- Witness for C5: the prefix-mismatch and parse-failure clauses applied
at concrete identifiers. -/
theorem circuitIdsOverlap_characterization_witness :
    circuitIdsOverlap ("pon,1-8".data) ("lg,9-12".data) = false ∧
    circuitIdsOverlap ("pon,1-8".data) ("garbage".data) = false :=
  ⟨circuitIdsOverlap_characterization.2.1 _ _ ("pon".data) 1 8 ("lg".data) 9 12
      (by decide) (by decide) (by decide),
   circuitIdsOverlap_characterization.2.2.1 _ _ (Or.inr (by decide))⟩

theorem takeWhile_append_all {p : Char → Bool} {l1 : Str} (l2 : Str)
    (h : ∀ x ∈ l1, p x = true) :
    (l1 ++ l2).takeWhile p = l1 ++ l2.takeWhile p := by
  induction l1 with
  | nil => simp
  | cons c cs ih =>
    rw [List.cons_append, List.takeWhile_cons, if_pos (h c (by simp)),
      ih (fun x hx => h x (by simp [hx]))]
    simp

theorem dropWhile_append_all {p : Char → Bool} {l1 : Str} (l2 : Str)
    (h : ∀ x ∈ l1, p x = true) :
    (l1 ++ l2).dropWhile p = l2.dropWhile p := by
  induction l1 with
  | nil => simp
  | cons c cs ih =>
    rw [List.cons_append, List.dropWhile_cons, if_pos (h c (by simp))]
    exact ih (fun x hx => h x (by simp [hx]))

/-- C10: `parseCircuitId` succeeds exactly when the string ends in a
`digits-digits` pattern (no comma or prefix structure required), and on
a match where the first digit run is maximal (nothing digit-like
immediately precedes it) it returns `end - start + 1` as an integer,
which is zero or negative when `end < start`; concrete cases include a
negative count and a comma-free success. -/
theorem parseCircuitId_characterization :
    (∀ s : Str, (∃ k, parseCircuitId s = some k) ↔
      ∃ u a b, s = u ++ a ++ '-' :: b ∧ a ≠ [] ∧ b ≠ [] ∧
        allDigits a = true ∧ allDigits b = true) ∧
    (∀ u a b : Str, allDigits a = true → allDigits b = true → a ≠ [] → b ≠ [] →
      (∀ c, u.getLast? = some c → c.isDigit = false) →
      parseCircuitId (u ++ a ++ '-' :: b) =
        some ((digitsToNat b : Int) - (digitsToNat a : Int) + 1)) ∧
    parseCircuitId ("x9-3".data) = some (-5) ∧
    parseCircuitId ("lg,33-36".data) = some 4 ∧
    parseCircuitId ("pon,4-3".data) = some 0 ∧
    parseCircuitId ("abc".data) = none := by
  have hval : ∀ u a b : Str, allDigits a = true → allDigits b = true →
      a ≠ [] → b ≠ [] → (∀ c, u.getLast? = some c → c.isDigit = false) →
      parseCircuitId (u ++ a ++ '-' :: b) =
        some ((digitsToNat b : Int) - (digitsToNat a : Int) + 1) := by
    intro u a b hda hdb ha hb hu
    have hdarev : ∀ x ∈ a.reverse, x.isDigit = true := by
      intro x hx
      exact List.all_eq_true.mp hda x (List.mem_reverse.mp hx)
    have hdbrev : ∀ x ∈ b.reverse, x.isDigit = true := by
      intro x hx
      exact List.all_eq_true.mp hdb x (List.mem_reverse.mp hx)
    have hrev : (u ++ a ++ '-' :: b).reverse =
        b.reverse ++ '-' :: (a.reverse ++ u.reverse) := by
      simp
    have hurev : u.reverse.takeWhile Char.isDigit = [] := by
      cases hu2 : u.reverse with
      | nil => simp
      | cons c cs =>
        have : u.getLast? = some c := by
          rw [List.getLast?_eq_head?_reverse, hu2]
          rfl
        rw [List.takeWhile_cons, if_neg (by simp [hu c this])]
    have htake : (b.reverse ++ '-' :: (a.reverse ++ u.reverse)).takeWhile Char.isDigit
        = b.reverse := by
      rw [takeWhile_append_all _ hdbrev, List.takeWhile_cons, if_neg (by decide)]
      simp
    have hdrop : (b.reverse ++ '-' :: (a.reverse ++ u.reverse)).dropWhile Char.isDigit
        = '-' :: (a.reverse ++ u.reverse) := by
      rw [dropWhile_append_all _ hdbrev, List.dropWhile_cons, if_neg (by decide)]
    have htake2 : (a.reverse ++ u.reverse).takeWhile Char.isDigit = a.reverse := by
      rw [takeWhile_append_all _ hdarev, hurev]
      simp
    simp only [parseCircuitId, hrev, htake, hdrop, htake2, List.reverse_reverse]
    rw [if_neg (by simp [hb]), if_neg (by simp [ha])]
  refine ⟨?_, hval, by decide, by decide, by decide, by decide⟩
  intro s
  constructor
  · rintro ⟨k, hk⟩
    simp only [parseCircuitId] at hk
    split at hk
    next => exact absurd hk (by simp)
    next hne =>
      split at hk
      next r2 heq =>
        split at hk
        next => exact absurd hk (by simp)
        next hne2 =>
          refine ⟨(r2.dropWhile Char.isDigit).reverse,
            (r2.takeWhile Char.isDigit).reverse,
            (s.reverse.takeWhile Char.isDigit).reverse, ?_, ?_, ?_, ?_, ?_⟩
          · have key : s.reverse = ((r2.dropWhile Char.isDigit).reverse ++
                (r2.takeWhile Char.isDigit).reverse ++ '-' ::
                (s.reverse.takeWhile Char.isDigit).reverse).reverse := by
              simp [← heq]
            exact List.reverse_injective key
          · simp [hne2]
          · simp [hne]
          · rw [allDigits, List.all_reverse]
            exact List.all_eq_true.mpr (fun x hx => List.mem_takeWhile_imp hx)
          · rw [allDigits, List.all_reverse]
            exact List.all_eq_true.mpr (fun x hx => List.mem_takeWhile_imp hx)
      next => exact absurd hk (by simp)
  · rintro ⟨u, a, b, rfl, ha, hb, hda, hdb⟩
    have hdarev : ∀ x ∈ a.reverse, x.isDigit = true := by
      intro x hx
      exact List.all_eq_true.mp hda x (List.mem_reverse.mp hx)
    have hdbrev : ∀ x ∈ b.reverse, x.isDigit = true := by
      intro x hx
      exact List.all_eq_true.mp hdb x (List.mem_reverse.mp hx)
    have hrev : (u ++ a ++ '-' :: b).reverse =
        b.reverse ++ '-' :: (a.reverse ++ u.reverse) := by
      simp
    have htake : (b.reverse ++ '-' :: (a.reverse ++ u.reverse)).takeWhile Char.isDigit
        = b.reverse := by
      rw [takeWhile_append_all _ hdbrev, List.takeWhile_cons, if_neg (by decide)]
      simp
    have hdrop : (b.reverse ++ '-' :: (a.reverse ++ u.reverse)).dropWhile Char.isDigit
        = '-' :: (a.reverse ++ u.reverse) := by
      rw [dropWhile_append_all _ hdbrev, List.dropWhile_cons, if_neg (by decide)]
    have htake2 : (a.reverse ++ u.reverse).takeWhile Char.isDigit =
        a.reverse ++ u.reverse.takeWhile Char.isDigit :=
      takeWhile_append_all _ hdarev
    simp only [parseCircuitId, hrev, htake, hdrop, htake2]
    rw [if_neg (by simp [hb]), if_neg (by simp [ha])]
    exact ⟨_, rfl⟩

/-- Witness for C10: the success-value clause applied at the concrete
decomposition `"ks," ++ "219" ++ "-" ++ "228"`. -/
theorem parseCircuitId_characterization_witness :
    parseCircuitId ("ks,".data ++ "219".data ++ '-' :: ("228".data)) = some 10 := by
  have h := parseCircuitId_characterization.2.1 ("ks,".data) ("219".data) ("228".data)
    (by decide) (by decide) (by decide) (by decide) (by decide)
  rw [h]
  decide

theorem dash_not_mem_of_allDigits {l : Str} (h : allDigits l = true) : '-' ∉ l := by
  intro hm
  have := List.all_eq_true.mp h _ hm
  exact absurd this (by decide)

/-- C6 (amended): after normalization, parsing a circuit identifier
fails exactly when no comma-delimited two-part structure is present or
the trimmed range part is not of the form `digits-digits`; on success
the trimmed prefix and the two integers are returned.  Contrary to the
original claim, `start > end` is not rejected (see the counterexample
theorem). -/
theorem parseCircuitIdParts_error_iff :
    (∀ s : Str, parseCircuitIdParts (normalizeCircuitId s) = none ↔
      (∀ p0 r0, splitOnChar ',' (normalizeCircuitId s) = [p0, r0] →
        ∀ a b, a ≠ [] → b ≠ [] → allDigits a = true → allDigits b = true →
          jsTrim r0 ≠ a ++ '-' :: b)) ∧
    (∀ s p0 r0 a b, splitOnChar ',' (normalizeCircuitId s) = [p0, r0] →
      jsTrim r0 = a ++ '-' :: b → a ≠ [] → b ≠ [] →
      allDigits a = true → allDigits b = true →
      parseCircuitIdParts (normalizeCircuitId s) =
        some (jsTrim p0, digitsToNat a, digitsToNat b)) := by
  have hsucc : ∀ s p0 r0 a b, splitOnChar ',' (normalizeCircuitId s) = [p0, r0] →
      jsTrim r0 = a ++ '-' :: b → a ≠ [] → b ≠ [] →
      allDigits a = true → allDigits b = true →
      parseCircuitIdParts (normalizeCircuitId s) =
        some (jsTrim p0, digitsToNat a, digitsToNat b) := by
    intro s p0 r0 a b hsplit hr0 ha hb hda hdb
    exact parseCircuitIdParts_some_iff.mpr ⟨p0, r0, a, b, hsplit, rfl,
      splitOnChar_pair.mpr ⟨hr0, dash_not_mem_of_allDigits hda,
        dash_not_mem_of_allDigits hdb⟩, ha, hb, hda, hdb, rfl, rfl⟩
  refine ⟨?_, hsucc⟩
  intro s
  constructor
  · intro hnone p0 r0 hsplit a b ha hb hda hdb hr0
    have := hsucc s p0 r0 a b hsplit hr0 ha hb hda hdb
    rw [hnone] at this
    exact absurd this (by simp)
  · intro hall
    cases hres : parseCircuitIdParts (normalizeCircuitId s) with
    | none => rfl
    | some v =>
      obtain ⟨p, st, en⟩ := v
      obtain ⟨p0, r0, a, b, h1, -, h3, ha, hb, hda, hdb, -, -⟩ :=
        parseCircuitIdParts_some_iff.mp hres
      obtain ⟨hr0, -, -⟩ := splitOnChar_pair.mp h3
      exact absurd hr0 (hall p0 r0 h1 a b ha hb hda hdb)

/-- Witness for C6: the success clause applied at the concrete
identifier `"pon,1-8"`, whose range part decomposes as `"1" ++ "-" ++ "8"`. -/
theorem parseCircuitIdParts_error_iff_witness :
    parseCircuitIdParts (normalizeCircuitId ("pon,1-8".data)) =
      some (jsTrim ("pon".data), digitsToNat ("1".data), digitsToNat ("8".data)) :=
  parseCircuitIdParts_error_iff.2 ("pon,1-8".data) ("pon".data) ("1-8".data)
    ("1".data) ("8".data) (by decide) (by decide) (by decide) (by decide)
    (by decide) (by decide)

/-- Counterexample for C6 as stated: the identifier `"pon,8-3"` has
`start > end`, yet parsing succeeds after normalization instead of
failing with a format error. -/
theorem parseCircuitIdParts_startGtEnd_counterexample :
    parseCircuitIdParts (normalizeCircuitId ("pon,8-3".data)) =
      some ("pon".data, 8, 3) ∧ 8 > 3 := by
  constructor
  · decide
  · decide

theorem contains_iff_mem {l : Str} {a : Char} : l.contains a = true ↔ a ∈ l :=
  List.elem_iff

mutual

theorem splitWsGo_chunks : ∀ (s acc : Str),
    (∀ c ∈ acc, isSpaceChar c = false) →
    ∀ l ∈ splitWsGo s acc, ∀ c ∈ l, isSpaceChar c = false
  | [], acc => by
    intro hacc l hl c hc
    simp only [splitWsGo, List.mem_singleton] at hl
    subst hl
    exact hacc c (List.mem_reverse.mp hc)
  | c0 :: cs, acc => by
    intro hacc l hl c hc
    unfold splitWsGo at hl
    by_cases h : isSpaceChar c0
    · rw [if_pos h] at hl
      rcases List.mem_cons.mp hl with h1 | h1
      · subst h1
        exact hacc c (List.mem_reverse.mp hc)
      · exact splitWsSkip_chunks cs l h1 c hc
    · rw [if_neg h] at hl
      refine splitWsGo_chunks cs (c0 :: acc) ?_ l hl c hc
      intro x hx
      rcases List.mem_cons.mp hx with h1 | h1
      · subst h1
        simpa using h
      · exact hacc x h1

theorem splitWsSkip_chunks : ∀ (s : Str),
    ∀ l ∈ splitWsSkip s, ∀ c ∈ l, isSpaceChar c = false
  | [] => by
    intro l hl c hc
    simp only [splitWsSkip, List.mem_singleton] at hl
    subst hl
    simp at hc
  | c0 :: cs => by
    intro l hl c hc
    unfold splitWsSkip at hl
    by_cases h : isSpaceChar c0
    · rw [if_pos h] at hl
      exact splitWsSkip_chunks cs l hl c hc
    · rw [if_neg h] at hl
      refine splitWsGo_chunks cs [c0] ?_ l hl c hc
      intro x hx
      rw [List.mem_singleton] at hx
      subst hx
      simpa using h

end

theorem splitWs_chunks {s : Str} :
    ∀ l ∈ splitWs s, ∀ c ∈ l, isSpaceChar c = false :=
  splitWsGo_chunks s [] (by simp)

/-- C9: the two whitespace-form examples normalize as stated, a string
containing a comma after trimming is passed through unchanged apart
from the trim, the already-normalized example is a fixed point, and
`normalizeCircuitId` is idempotent on every input. -/
theorem normalizeCircuitId_properties :
    normalizeCircuitId ("pon 1 25".data) = ("pon,1-25".data) ∧
    normalizeCircuitId ("BR 021 365 372".data) = ("BR021,365-372".data) ∧
    (∀ s : Str, (jsTrim s).contains ',' = true → normalizeCircuitId s = jsTrim s) ∧
    normalizeCircuitId ("pon,1-25".data) = ("pon,1-25".data) ∧
    (∀ s : Str, normalizeCircuitId (normalizeCircuitId s) = normalizeCircuitId s) := by
  have hpass : ∀ s : Str, (jsTrim s).contains ',' = true →
      normalizeCircuitId s = jsTrim s := by
    intro s h
    unfold normalizeCircuitId
    rw [if_pos h]
  refine ⟨by decide, by decide, hpass, by decide, ?_⟩
  intro s
  by_cases hc : (jsTrim s).contains ',' = true
  · rw [hpass s hc]
    rw [hpass (jsTrim s) (by rw [jsTrim_idem]; exact hc)]
    exact jsTrim_idem s
  · have hc2 : (jsTrim s).contains ',' = false := by
      cases h : (jsTrim s).contains ','
      · rfl
      · exact absurd h hc
    cases hm : (splitWs (jsTrim s)).reverse with
    | nil =>
      have h1 : normalizeCircuitId s = jsTrim s := by
        unfold normalizeCircuitId
        rw [if_neg hc, hm]
      rw [h1]
      unfold normalizeCircuitId
      rw [jsTrim_idem, if_neg hc, hm]
    | cons rEnd ts =>
      cases ts with
      | nil =>
        have h1 : normalizeCircuitId s = jsTrim s := by
          unfold normalizeCircuitId
          rw [if_neg hc, hm]
        rw [h1]
        unfold normalizeCircuitId
        rw [jsTrim_idem, if_neg hc, hm]
      | cons rStart ts2 =>
        cases ts2 with
        | nil =>
          have h1 : normalizeCircuitId s = jsTrim s := by
            unfold normalizeCircuitId
            rw [if_neg hc, hm]
          rw [h1]
          unfold normalizeCircuitId
          rw [jsTrim_idem, if_neg hc, hm]
        | cons p1 ps =>
          have h1 : normalizeCircuitId s =
              ((p1 :: ps).reverse.flatten) ++ [','] ++ rStart ++ ['-'] ++ rEnd := by
            unfold normalizeCircuitId
            rw [if_neg hc, hm]
          have hchunks : ∀ l ∈ splitWs (jsTrim s), ∀ c ∈ l, isSpaceChar c = false :=
            splitWs_chunks
          have hres : ∀ c ∈ ((p1 :: ps).reverse.flatten) ++ [','] ++ rStart ++
              ['-'] ++ rEnd, isSpaceChar c = false := by
            intro c hcm
            simp only [List.append_assoc, List.mem_append, List.mem_singleton,
              List.mem_flatten, List.mem_reverse] at hcm
            rcases hcm with ⟨l, hl, hcl⟩ | hrest
            · have hlm : l ∈ (splitWs (jsTrim s)).reverse := by
                rw [hm]
                exact List.mem_cons_of_mem _ (List.mem_cons_of_mem _ hl)
              exact hchunks l (List.mem_reverse.mp hlm) c hcl
            · rcases hrest with hcomma | hrest2
              · subst hcomma; decide
              · rcases hrest2 with hcl | hrest3
                · have : rStart ∈ (splitWs (jsTrim s)).reverse := by
                    rw [hm]; simp
                  exact hchunks rStart (List.mem_reverse.mp this) c hcl
                · rcases hrest3 with hdash | hcl
                  · subst hdash; decide
                  · have : rEnd ∈ (splitWs (jsTrim s)).reverse := by
                      rw [hm]; simp
                    exact hchunks rEnd (List.mem_reverse.mp this) c hcl
          have htrimres : jsTrim (((p1 :: ps).reverse.flatten) ++ [','] ++ rStart ++
              ['-'] ++ rEnd) = ((p1 :: ps).reverse.flatten) ++ [','] ++ rStart ++
              ['-'] ++ rEnd := jsTrim_eq_self_of_all hres
          have hcontains : (jsTrim (((p1 :: ps).reverse.flatten) ++ [','] ++ rStart ++
              ['-'] ++ rEnd)).contains ',' = true := by
            rw [htrimres]
            exact contains_iff_mem.mpr (by simp)
          rw [h1, hpass _ hcontains, htrimres]

/-- Witness for C9: the pass-through clause applied at a concrete
untrimmed comma input. -/
theorem normalizeCircuitId_properties_witness :
    normalizeCircuitId (" lg,1-4 ".data) = jsTrim (" lg,1-4 ".data) :=
  normalizeCircuitId_properties.2.2.1 _ (by decide)

theorem getBinderNumber_mono {p q : Nat} (h : p ≤ q) :
    getBinderNumber p 25 ≤ getBinderNumber q 25 := by
  simp only [getBinderNumber]
  omega

theorem specSegments_decomp {ps pe : Nat}
    (hlt : getBinderNumber ps 25 < getBinderNumber pe 25) :
    specSegments ps pe 25 =
      (getBinderNumber ps 25, (ps - 1) % 25 + 1, 25) ::
      ((List.range' (getBinderNumber ps 25 + 1)
          (getBinderNumber pe 25 - getBinderNumber ps 25 - 1)).map
        (fun b => (b, 1, 25))) ++
      [(getBinderNumber pe 25, 1, (pe - 1) % 25 + 1)] := by
  simp only [specSegments]
  generalize hsb : getBinderNumber ps 25 = sb at hlt ⊢
  generalize heb : getBinderNumber pe 25 = eb at hlt ⊢
  have h1 : eb + 1 - sb = (eb - sb - 1) + 1 + 1 := by omega
  rw [h1, List.range'_succ]
  have h2 : sb + 1 + 1 * (eb - sb - 1) = eb := by omega
  rw [List.range'_concat, h2, List.map_cons, List.map_append, List.map_singleton]
  rw [if_pos rfl, if_neg (by omega), if_neg (by omega), if_pos rfl]
  rw [List.map_congr_left (g := fun b => ((b : Nat), 1, 25)) ?_]
  · simp
  · intro b hb
    rw [List.mem_range'_1] at hb
    rw [if_neg (by omega), if_neg (by omega)]

/-- C8 (amended): whenever the range lies in one binder or touches a
partial first or last binder, `getBinderAndPairDisplay` produces exactly
the per-binder segmentation `specSegments` (one segment per binder,
binder number `ceil(p / 25)`, positions `((p - 1) mod 25) + 1`); every
pair of the range is covered by the segment of its own binder; the
remaining case — a multi-binder range starting and ending exactly on
binder boundaries — produces the compact binder-range display instead
of per-binder segments (see the counterexample theorem); and the two
spec examples evaluate as stated. -/
theorem getBinderAndPairDisplay_amended :
    (∀ ps pe : Nat, 1 ≤ ps → ps ≤ pe →
      (getBinderNumber ps 25 = getBinderNumber pe 25 ∨
        (ps - 1) % 25 + 1 ≠ 1 ∨ (pe - 1) % 25 + 1 ≠ 25) →
      getBinderAndPairDisplay ps pe 25 =
        BinderDisplay.segments (specSegments ps pe 25)) ∧
    (∀ ps pe : Nat, 1 ≤ ps → ps ≤ pe → ∀ p, ps ≤ p → p ≤ pe →
      ∃ s e, (getBinderNumber p 25, s, e) ∈ specSegments ps pe 25 ∧
        s ≤ (p - 1) % 25 + 1 ∧ (p - 1) % 25 + 1 ≤ e) ∧
    (∀ ps pe : Nat, 1 ≤ ps → ps ≤ pe →
      getBinderNumber ps 25 ≠ getBinderNumber pe 25 →
      (ps - 1) % 25 + 1 = 1 → (pe - 1) % 25 + 1 = 25 →
      getBinderAndPairDisplay ps pe 25 =
        BinderDisplay.binderRange (getBinderNumber ps 25) (getBinderNumber pe 25)) ∧
    getBinderAndPairDisplay 1 25 25 = BinderDisplay.segments [(1, 1, 25)] ∧
    getBinderAndPairDisplay 20 30 25 =
      BinderDisplay.segments [(1, 20, 25), (2, 1, 5)] := by
  refine ⟨?_, ?_, ?_, by decide, by decide⟩
  · intro ps pe h1 h2 hcase
    by_cases heq : getBinderNumber ps 25 = getBinderNumber pe 25
    · simp only [getBinderAndPairDisplay]
      rw [if_pos heq]
      simp only [specSegments]
      rw [heq]
      have hn : getBinderNumber pe 25 + 1 - getBinderNumber pe 25 = 1 := by omega
      rw [hn, List.range'_one, List.map_singleton]
      simp
    · have hlt : getBinderNumber ps 25 < getBinderNumber pe 25 :=
        lt_of_le_of_ne (getBinderNumber_mono h2) heq
      have hsb1 : 1 ≤ getBinderNumber ps 25 := by
        simp only [getBinderNumber]; omega
      rcases hcase with hc | hc
      · exact absurd hc heq
      simp only [getBinderAndPairDisplay]
      rw [if_neg heq]
      have hcfalse : (!decide ((ps - 1) % 25 + 1 ≠ 1) &&
          !decide ((pe - 1) % 25 + 1 ≠ 25)) = false := by
        rcases hc with hc2 | hc2
        · simp [hc2]
        · simp [hc2]
      rw [hcfalse]
      simp only [Bool.false_eq_true, if_false]
      by_cases hsp : (ps - 1) % 25 + 1 = 1
      · by_cases hep : (pe - 1) % 25 + 1 = 25
        · rcases hc with hc2 | hc2
          · exact absurd hsp hc2
          · exact absurd hep hc2
        · simp only [if_neg (not_not_intro hsp), if_pos hep]
          rw [specSegments_decomp hlt]
          have harith : getBinderNumber pe 25 - 1 + 1 - getBinderNumber ps 25 =
              (getBinderNumber pe 25 - getBinderNumber ps 25 - 1) + 1 := by omega
          rw [harith, List.range'_succ]
          simp [hsp]
      · by_cases hep : (pe - 1) % 25 + 1 = 25
        · simp only [if_pos hsp, if_neg (not_not_intro hep)]
          rw [specSegments_decomp hlt]
          have harith : getBinderNumber pe 25 + 1 - (getBinderNumber ps 25 + 1) =
              (getBinderNumber pe 25 - getBinderNumber ps 25 - 1) + 1 := by omega
          rw [harith, List.range'_concat]
          have h2b : getBinderNumber ps 25 + 1 +
              1 * (getBinderNumber pe 25 - getBinderNumber ps 25 - 1) =
              getBinderNumber pe 25 := by omega
          rw [h2b]
          simp [hep]
        · simp only [if_pos hsp, if_pos hep]
          rw [specSegments_decomp hlt]
          have harith : getBinderNumber pe 25 - 1 + 1 - (getBinderNumber ps 25 + 1) =
              getBinderNumber pe 25 - getBinderNumber ps 25 - 1 := by omega
          rw [harith]
          simp
  · intro ps pe h1 h2 p hp1 hp2
    simp only [specSegments, getBinderNumber]
    refine ⟨if (p + 25 - 1) / 25 = (ps + 25 - 1) / 25 then (ps - 1) % 25 + 1 else 1,
      if (p + 25 - 1) / 25 = (pe + 25 - 1) / 25 then (pe - 1) % 25 + 1 else 25,
      ?_, ?_, ?_⟩
    · exact List.mem_map.mpr ⟨(p + 25 - 1) / 25,
        List.mem_range'_1.mpr ⟨by omega, by omega⟩, rfl⟩
    · by_cases hb : (p + 25 - 1) / 25 = (ps + 25 - 1) / 25
      · rw [if_pos hb]; omega
      · rw [if_neg hb]; omega
    · by_cases hb : (p + 25 - 1) / 25 = (pe + 25 - 1) / 25
      · rw [if_pos hb]; omega
      · rw [if_neg hb]; omega
  · intro ps pe h1 h2 hne hsp hep
    simp only [getBinderAndPairDisplay]
    rw [if_neg hne]
    rw [if_pos (by simp [hsp, hep])]

/-- Witness for C8: the segment clause applied at the range `[20, 30]`,
whose per-binder segmentation is `[(1,20,25), (2,1,5)]`. -/
theorem getBinderAndPairDisplay_amended_witness :
    getBinderAndPairDisplay 20 30 25 =
      BinderDisplay.segments (specSegments 20 30 25) ∧
    specSegments 20 30 25 = [(1, 20, 25), (2, 1, 5)] :=
  ⟨getBinderAndPairDisplay_amended.1 20 30 (by decide) (by decide)
      (Or.inr (Or.inl (by decide))), by decide⟩

/-- Counterexample for C8 as stated: the range `[1, 50]` touches binders
1 and 2, so one segment per binder would be `[(1,1,25), (2,1,25)]`, but
the code emits the compact binder-range display instead of a segment
sequence. -/
theorem getBinderAndPairDisplay_counterexample :
    getBinderAndPairDisplay 1 50 25 = BinderDisplay.binderRange 1 2 ∧
    getBinderAndPairDisplay 1 50 25 ≠
      BinderDisplay.segments [(1, 1, 25), (2, 1, 25)] := by
  constructor
  · decide
  · decide

theorem parse_to_js {cid p : Str} {s e : Nat}
    (h : parseCircuitIdParts cid = some (p, s, e)) :
    ∃ p0 r0 a b, splitOnChar ',' cid = [p0, r0] ∧ jsTrim p0 = p ∧
      splitOnChar '-' (jsTrim r0) = [a, b] ∧
      jsParseInt a = some ((s : Nat) : Int) ∧
      jsParseInt b = some ((e : Nat) : Int) := by
  obtain ⟨p0, r0, a, b, h1, h2, h3, ha, hb, hda, hdb, h5, h6⟩ :=
    parseCircuitIdParts_some_iff.mp h
  refine ⟨p0, r0, a, b, h1, h2, h3, ?_, ?_⟩
  · rw [jsParseInt_digits hda ha, h5]
  · rw [jsParseInt_digits hdb hb, h6]

theorem feedMatchPred_eq_spec (allCables : List Cable) (p : Str) (ds de : Nat)
    (c : Circuit) (hc : (parseCircuitIdParts c.circuitId).isSome = true) :
    feedMatchPred allCables p (some ((ds : Nat) : Int)) (some ((de : Nat) : Int)) c =
      specFeedPred allCables p ds de c := by
  obtain ⟨⟨fp, fs, fe⟩, hparse⟩ := Option.isSome_iff_exists.mp hc
  obtain ⟨p0, r0, a, b, h1, h2, h3, hja, hjb⟩ := parse_to_js hparse
  unfold feedMatchPred specFeedPred
  cases hfind : allCables.find? (fun cb => cb.id == c.cableId) with
  | none => simp
  | some fc =>
    rw [h1, hparse]
    dsimp only
    by_cases hty : fc.type = CableType.Feed
    · rw [if_neg (not_not_intro hty)]
      by_cases hpfx : fp = p
      · rw [if_neg (not_not_intro (h2.trans hpfx))]
        rw [h3]
        dsimp only
        rw [hja, hjb]
        simp [nanGe, nanLe, hty, hpfx]
      · rw [if_pos (fun hcontra => hpfx (h2.symm.trans hcontra))]
        simp [hty, hpfx]
    · rw [if_pos hty]
      simp [hty]

/-- C2: for a distribution circuit whose identifier parses, in a
universe of parsable identifiers, the code's feed matcher selects
exactly the first circuit in list order satisfying the spec predicate —
owning cable of role `Feed`, equal prefix, and numeric containment
`f.start <= d.start && d.end <= f.end` (boundary equality included);
when no circuit qualifies, the handler returns the no-matching-feed
error carrying the searched prefix and numeric range, an action with no
mutation payload, so the circuit's `isSpliced` flag is left false. -/
theorem handleCheckboxChange_matcher_spec
    (allCables : List Cable) (allCircuits : List Circuit)
    (cable : Cable) (circuit : Circuit) (p : Str) (ds de : Nat)
    (hty : cable.type = CableType.Distribution)
    (hd : parseCircuitIdParts circuit.circuitId = some (p, ds, de))
    (hall : ∀ c ∈ allCircuits, (parseCircuitIdParts c.circuitId).isSome = true) :
    findMatchingFeedCircuit allCables allCircuits p
        (some ((ds : Nat) : Int)) (some ((de : Nat) : Int)) =
      allCircuits.find? (specFeedPred allCables p ds de) ∧
    (allCircuits.find? (specFeedPred allCables p ds de) = none →
      handleCheckboxChange allCables allCircuits cable circuit true =
        ToggleAction.noMatchingFeed p (some ((ds : Nat) : Int))
          (some ((de : Nat) : Int))) := by
  have hfind : findMatchingFeedCircuit allCables allCircuits p
      (some ((ds : Nat) : Int)) (some ((de : Nat) : Int)) =
      allCircuits.find? (specFeedPred allCables p ds de) :=
    find?_congr (fun c hc => feedMatchPred_eq_spec allCables p ds de c (hall c hc))
  refine ⟨hfind, ?_⟩
  intro hnone
  obtain ⟨p0, r0, a0, b0, h1, h2, h3, hja, hjb⟩ := parse_to_js hd
  unfold handleCheckboxChange
  rw [if_pos ⟨hty, rfl⟩, h1]
  dsimp only
  rw [h3]
  dsimp only
  rw [h2, hja, hjb, hfind, hnone]

/-- Witness for C2: the matcher agreement applied in a two-cable,
two-circuit universe where `"pon,3-4"` is matched against `"pon,1-12"`. -/
theorem handleCheckboxChange_matcher_spec_witness :
    findMatchingFeedCircuit
        [⟨("F".data), ("feed".data), 100, 25, CableType.Feed⟩,
         ⟨("D".data), ("dist".data), 50, 25, CableType.Distribution⟩]
        [⟨("f1".data), ("F".data), ("pon,1-12".data), 0, 1, 12, false, none, none, none⟩,
         ⟨("d1".data), ("D".data), ("pon,3-4".data), 0, 1, 2, false, none, none, none⟩]
        ("pon".data) (some ((3 : Nat) : Int)) (some ((4 : Nat) : Int)) =
      List.find?
        (specFeedPred
          [⟨("F".data), ("feed".data), 100, 25, CableType.Feed⟩,
           ⟨("D".data), ("dist".data), 50, 25, CableType.Distribution⟩]
          ("pon".data) 3 4)
        [⟨("f1".data), ("F".data), ("pon,1-12".data), 0, 1, 12, false, none, none, none⟩,
         ⟨("d1".data), ("D".data), ("pon,3-4".data), 0, 1, 2, false, none, none, none⟩] :=
  (handleCheckboxChange_matcher_spec
    [⟨("F".data), ("feed".data), 100, 25, CableType.Feed⟩,
     ⟨("D".data), ("dist".data), 50, 25, CableType.Distribution⟩]
    [⟨("f1".data), ("F".data), ("pon,1-12".data), 0, 1, 12, false, none, none, none⟩,
     ⟨("d1".data), ("D".data), ("pon,3-4".data), 0, 1, 2, false, none, none, none⟩]
    (⟨("D".data), ("dist".data), 50, 25, CableType.Distribution⟩)
    (⟨("d1".data), ("D".data), ("pon,3-4".data), 0, 1, 2, false, none, none, none⟩)
    ("pon".data) 3 4 (by decide) (by decide) (by decide)).1

/-- C3: when the matcher has selected feed circuit `f` (identifier
parsing to `(fp, fs, fe)`) for a distribution circuit whose identifier
parses to `(p, ds, de)`, the mutation payload carries exactly
`feedPairStart = f.fiberStart + (ds - fs)` and
`feedPairEnd = f.fiberStart + (de - fs)`, built on the feed circuit's
allocator-computed physical `fiberStart`, not its identifier range
start. -/
theorem handleCheckboxChange_derived_range
    (allCables : List Cable) (allCircuits : List Circuit)
    (cable : Cable) (circuit f : Circuit) (p fp : Str) (ds de fs fe : Nat)
    (hty : cable.type = CableType.Distribution)
    (hd : parseCircuitIdParts circuit.circuitId = some (p, ds, de))
    (hfound : findMatchingFeedCircuit allCables allCircuits p
      (some ((ds : Nat) : Int)) (some ((de : Nat) : Int)) = some f)
    (hf : parseCircuitIdParts f.circuitId = some (fp, fs, fe)) :
    handleCheckboxChange allCables allCircuits cable circuit true =
      ToggleAction.spliceMutate circuit.id
        ((allCables.find? (fun cb => cb.id == f.cableId)).map Cable.id)
        (some (f.fiberStart + (((ds : Nat) : Int) - ((fs : Nat) : Int))))
        (some (f.fiberStart + (((de : Nat) : Int) - ((fs : Nat) : Int)))) := by
  obtain ⟨p0, r0, a0, b0, h1, h2, h3, hja, hjb⟩ := parse_to_js hd
  obtain ⟨q0, t0, fa, fb, g1, g2, g3, gja, gjb⟩ := parse_to_js hf
  have hrep : reparseFeedRange f =
      (some ((fs : Nat) : Int), some ((fe : Nat) : Int)) := by
    unfold reparseFeedRange
    rw [g1]
    dsimp only
    rw [g3]
    dsimp only
    rw [gja, gjb]
  unfold handleCheckboxChange
  rw [if_pos ⟨hty, rfl⟩, h1]
  dsimp only
  rw [h3]
  dsimp only
  rw [h2, hja, hjb, hfound]
  dsimp only
  rw [hrep]
  rfl

/-- Witness for C3: the derived physical feed range for `"pon,3-4"`
matched against `"pon,1-12"` with physical start 1 is pairs 3 to 4. -/
theorem handleCheckboxChange_derived_range_witness :
    handleCheckboxChange
        [⟨("F".data), ("feed".data), 100, 25, CableType.Feed⟩,
         ⟨("D".data), ("dist".data), 50, 25, CableType.Distribution⟩]
        [⟨("f1".data), ("F".data), ("pon,1-12".data), 0, 1, 12, false, none, none, none⟩,
         ⟨("d1".data), ("D".data), ("pon,3-4".data), 0, 1, 2, false, none, none, none⟩]
        (⟨("D".data), ("dist".data), 50, 25, CableType.Distribution⟩)
        (⟨("d1".data), ("D".data), ("pon,3-4".data), 0, 1, 2, false, none, none, none⟩)
        true =
      ToggleAction.spliceMutate ("d1".data) (some ("F".data)) (some 3) (some 4) := by
  have h := handleCheckboxChange_derived_range
    [⟨("F".data), ("feed".data), 100, 25, CableType.Feed⟩,
     ⟨("D".data), ("dist".data), 50, 25, CableType.Distribution⟩]
    [⟨("f1".data), ("F".data), ("pon,1-12".data), 0, 1, 12, false, none, none, none⟩,
     ⟨("d1".data), ("D".data), ("pon,3-4".data), 0, 1, 2, false, none, none, none⟩]
    (⟨("D".data), ("dist".data), 50, 25, CableType.Distribution⟩)
    (⟨("d1".data), ("D".data), ("pon,3-4".data), 0, 1, 2, false, none, none, none⟩)
    (⟨("f1".data), ("F".data), ("pon,1-12".data), 0, 1, 12, false, none, none, none⟩)
    ("pon".data) ("pon".data) 3 4 1 12 (by decide) (by decide) (by decide) (by decide)
  rw [h]
  decide

/-- C4 (conflict detector modelled from the spec, the server toggle
endpoint being outside the sources): once the matcher has derived a
splice mutation for the toggled circuit with feed cable `fc` and
physical range `[s, e]`, if any other circuit already references `fc`
with a stored feed range intersecting `[s, e]`
(`s <= existingEnd && existingStart <= e`), the toggle operation fails
with a feed-pair-conflict error naming a conflicting circuit — the
first such circuit in list order — and returns no updated circuit list,
so the toggled circuit's `isSpliced` flag is unchanged.  In
`toggleSplicedChecked` the conflict check runs on the freshly derived
range and only a conflict-free candidate reaches `persistSplice`. -/
theorem toggleSplicedChecked_conflict
    (allCables : List Cable) (allCircuits : List Circuit)
    (cable : Cable) (circuit : Circuit) (fc : Str) (s e : Int)
    (hact : handleCheckboxChange allCables allCircuits cable circuit true =
      ToggleAction.spliceMutate circuit.id (some fc) (some s) (some e))
    (hconf : ∃ c ∈ allCircuits, c.id ≠ circuit.id ∧ conflictsWith fc s e c = true) :
    ∃ c, toggleSplicedChecked allCables allCircuits cable circuit =
        Except.error (ToggleError.feedPairConflict c) ∧
      c ∈ allCircuits ∧ c.id ≠ circuit.id ∧ conflictsWith fc s e c = true ∧
      ∀ l, toggleSplicedChecked allCables allCircuits cable circuit ≠ Except.ok l := by
  have hex : ∃ c, allCircuits.find?
      (fun c => !(c.id == circuit.id) && conflictsWith fc s e c) = some c := by
    obtain ⟨c0, hc0mem, hcne, hcw⟩ := hconf
    refine Option.isSome_iff_exists.mp (List.find?_isSome.mpr ⟨c0, hc0mem, ?_⟩)
    simp only [Bool.and_eq_true, Bool.not_eq_true', beq_eq_false_iff_ne]
    exact ⟨hcne, hcw⟩
  obtain ⟨c, hfind⟩ := hex
  have hres : toggleSplicedChecked allCables allCircuits cable circuit =
      Except.error (ToggleError.feedPairConflict c) := by
    unfold toggleSplicedChecked
    rw [hact]
    dsimp only
    rw [hfind]
  have hprop := List.find?_some hfind
  simp only [Bool.and_eq_true, Bool.not_eq_true', beq_eq_false_iff_ne] at hprop
  exact ⟨c, hres, List.mem_of_find?_eq_some hfind, hprop.1, hprop.2,
    fun l hl => by rw [hres] at hl; exact absurd hl (by simp)⟩

/-- Witness for C4: the spec's example — `"pon,8-12"` deriving feed
pairs 8-12 on a feed cable whose pairs 1-8 are already claimed by a
spliced `"pon,1-8"` circuit — is rejected with a conflict. -/
theorem toggleSplicedChecked_conflict_witness :
    ∃ c, toggleSplicedChecked
        [⟨("F".data), ("feed".data), 100, 25, CableType.Feed⟩,
         ⟨("D".data), ("dist".data), 50, 25, CableType.Distribution⟩]
        [⟨("f1".data), ("F".data), ("pon,1-20".data), 0, 1, 20, false, none, none, none⟩,
         ⟨("d2".data), ("D".data), ("pon,1-8".data), 0, 1, 8, true,
           some ("F".data), some 1, some 8⟩,
         ⟨("d3".data), ("D".data), ("pon,8-12".data), 1, 9, 13, false, none, none, none⟩]
        (⟨("D".data), ("dist".data), 50, 25, CableType.Distribution⟩)
        (⟨("d3".data), ("D".data), ("pon,8-12".data), 1, 9, 13, false, none, none, none⟩) =
        Except.error (ToggleError.feedPairConflict c) ∧
      c ∈ [⟨("f1".data), ("F".data), ("pon,1-20".data), 0, 1, 20, false, none, none, none⟩,
         ⟨("d2".data), ("D".data), ("pon,1-8".data), 0, 1, 8, true,
           some ("F".data), some 1, some 8⟩,
         ⟨("d3".data), ("D".data), ("pon,8-12".data), 1, 9, 13, false, none, none, none⟩] ∧
      c.id ≠ ("d3".data) ∧ conflictsWith ("F".data) 8 12 c = true ∧
      ∀ l, toggleSplicedChecked
        [⟨("F".data), ("feed".data), 100, 25, CableType.Feed⟩,
         ⟨("D".data), ("dist".data), 50, 25, CableType.Distribution⟩]
        [⟨("f1".data), ("F".data), ("pon,1-20".data), 0, 1, 20, false, none, none, none⟩,
         ⟨("d2".data), ("D".data), ("pon,1-8".data), 0, 1, 8, true,
           some ("F".data), some 1, some 8⟩,
         ⟨("d3".data), ("D".data), ("pon,8-12".data), 1, 9, 13, false, none, none, none⟩]
        (⟨("D".data), ("dist".data), 50, 25, CableType.Distribution⟩)
        (⟨("d3".data), ("D".data), ("pon,8-12".data), 1, 9, 13, false, none, none, none⟩) ≠
        Except.ok l :=
  toggleSplicedChecked_conflict
    [⟨("F".data), ("feed".data), 100, 25, CableType.Feed⟩,
     ⟨("D".data), ("dist".data), 50, 25, CableType.Distribution⟩]
    [⟨("f1".data), ("F".data), ("pon,1-20".data), 0, 1, 20, false, none, none, none⟩,
     ⟨("d2".data), ("D".data), ("pon,1-8".data), 0, 1, 8, true,
       some ("F".data), some 1, some 8⟩,
     ⟨("d3".data), ("D".data), ("pon,8-12".data), 1, 9, 13, false, none, none, none⟩]
    (⟨("D".data), ("dist".data), 50, 25, CableType.Distribution⟩)
    (⟨("d3".data), ("D".data), ("pon,8-12".data), 1, 9, 13, false, none, none, none⟩)
    ("F".data) 8 12 (by decide) (by decide)

theorem existingConflicts_of_overlap {newId np : Str} {ns ne : Nat}
    (hnew : parseCircuitIdParts newId = some (np, ns, ne))
    {c : Circuit} (hov : circuitIdsOverlap newId c.circuitId = true)
    {excl : Option Str}
    (hns : (match excl with
            | some ex => !ex.isEmpty && c.id == ex
            | none => false) = false) :
    existingConflicts np ((ns : Nat) : Int) ((ne : Nat) : Int) excl c = true := by
  obtain ⟨p, s1, e1, s2, e2, h1, h2, l1, l2⟩ := circuitIdsOverlap_iff.mp hov
  rw [hnew] at h1
  simp only [Option.some.injEq, Prod.mk.injEq] at h1
  obtain ⟨hp, hs, he⟩ := h1
  subst hp; subst hs; subst he
  obtain ⟨p0, r0, a, b, g1, g2, g3, gja, gjb⟩ := parse_to_js h2
  unfold existingConflicts
  rw [if_neg (by rw [hns]; simp)]
  rw [g1]
  dsimp only
  rw [g3]
  dsimp only
  rw [gja, gjb]
  dsimp only
  rw [g2]
  simp only [Bool.and_eq_true, beq_self_eq_true, decide_eq_true_eq, true_and]
  exact ⟨Int.ofNat_le.mpr l1, Int.ofNat_le.mpr l2⟩

theorem parseAndCheck_rejects (circuits : List Circuit) (newId : Str)
    (excl : Option Str) (c : Circuit) (hc : c ∈ circuits)
    (hns : (match excl with
            | some ex => !ex.isEmpty && c.id == ex
            | none => false) = false)
    (hov : circuitIdsOverlap newId c.circuitId = true) :
    ∃ err, parseAndCheckCircuitId circuits newId excl = some err := by
  obtain ⟨p, s1, e1, s2, e2, h1, h2, l1, l2⟩ := circuitIdsOverlap_iff.mp hov
  obtain ⟨p0, r0, a0, b0, g1, g2, g3, gja, gjb⟩ := parse_to_js h1
  have hpred : existingConflicts p ((s1 : Nat) : Int) ((e1 : Nat) : Int) excl c = true :=
    existingConflicts_of_overlap h1 hov hns
  obtain ⟨c2, hc2⟩ : ∃ c2, circuits.find?
      (existingConflicts p ((s1 : Nat) : Int) ((e1 : Nat) : Int) excl) = some c2 :=
    Option.isSome_iff_exists.mp (List.find?_isSome.mpr ⟨c, hc, hpred⟩)
  unfold parseAndCheckCircuitId
  rw [g1]
  dsimp only
  rw [g3]
  dsimp only
  rw [gja, gjb]
  dsimp only
  rw [g2, hc2]
  exact ⟨ValidationError.overlapError c2, rfl⟩

/-- C7: adding a circuit or editing an identifier is rejected by
`parseAndCheckCircuitId` whenever the new identifier's range overlaps a
sibling not excluded by the edit; a passing validation guarantees the
new identifier overlaps no sibling, so appending it preserves pairwise
non-overlap of the cable's identifiers; and `handleAddCircuit` issues
no create mutation when an overlap exists.  The validation runs on the
client before the create/update request, hence before the server-side
allocation. -/
theorem circuit_overlap_validation (circuits : List Circuit) (newId : Str)
    (excl : Option Str) :
    (∀ c ∈ circuits,
      (match excl with
       | some ex => !ex.isEmpty && c.id == ex
       | none => false) = false →
      circuitIdsOverlap newId c.circuitId = true →
      ∃ err, parseAndCheckCircuitId circuits newId excl = some err) ∧
    (parseAndCheckCircuitId circuits newId none = none →
      ∀ c ∈ circuits, circuitIdsOverlap newId c.circuitId = false) ∧
    (∀ cNew : Circuit, cNew.circuitId = newId →
      parseAndCheckCircuitId circuits newId none = none →
      List.Pairwise (fun x y => circuitIdsOverlap x.circuitId y.circuitId = false)
        circuits →
      List.Pairwise (fun x y => circuitIdsOverlap x.circuitId y.circuitId = false)
        (circuits ++ [cNew])) ∧
    (∀ cableId input, (∃ c ∈ circuits,
      circuitIdsOverlap (jsTrim input) c.circuitId = true) →
      handleAddCircuit circuits cableId input = none) := by
  have hnooverlap : parseAndCheckCircuitId circuits newId none = none →
      ∀ c ∈ circuits, circuitIdsOverlap newId c.circuitId = false := by
    intro hok c hc
    cases hov : circuitIdsOverlap newId c.circuitId with
    | false => rfl
    | true =>
      obtain ⟨err, herr⟩ := parseAndCheck_rejects circuits newId none c hc rfl hov
      rw [hok] at herr
      exact absurd herr (by simp)
  refine ⟨fun c hc hns hov => parseAndCheck_rejects circuits newId excl c hc hns hov,
    hnooverlap, ?_, ?_⟩
  · intro cNew hid hok hpw
    rw [List.pairwise_append]
    refine ⟨hpw, List.pairwise_singleton _ _, ?_⟩
    intro a ha b hb
    rw [List.mem_singleton] at hb
    subst hb
    rw [hid, circuitIdsOverlap_comm]
    exact hnooverlap hok a ha
  · intro cableId input ⟨c, hc, hov⟩
    unfold handleAddCircuit
    by_cases hemp : jsTrim input = []
    · rw [if_pos hemp]
    · rw [if_neg hemp]
      obtain ⟨err, herr⟩ :=
        parseAndCheck_rejects circuits (jsTrim input) none c hc rfl hov
      rw [herr]

/-- Witness for C7: adding `"pon,8-12"` to a cable already holding
`"pon,5-10"` issues no create mutation. -/
theorem circuit_overlap_validation_witness :
    handleAddCircuit
      [⟨("c1".data), ("D".data), ("pon,5-10".data), 0, 1, 6, false, none, none, none⟩]
      ("D".data) ("pon,8-12".data) = none :=
  (circuit_overlap_validation
    [⟨("c1".data), ("D".data), ("pon,5-10".data), 0, 1, 6, false, none, none, none⟩]
    [] none).2.2.2 ("D".data) ("pon,8-12".data)
    ⟨⟨("c1".data), ("D".data), ("pon,5-10".data), 0, 1, 6, false, none, none, none⟩,
      by decide, by decide⟩

theorem goodCount_pos {cid : Str} (h : goodCount cid = true) :
    1 ≤ pairCountOf cid := by
  unfold goodCount at h
  unfold pairCountOf
  cases hp : parseCircuitId cid with
  | none => rw [hp] at h; simp at h
  | some k =>
    rw [hp] at h
    simp only [decide_eq_true_eq] at h
    simpa using h

theorem allocateFrom_contiguous :
    ∀ (ids : List Str) (n : Int), contiguousFrom n (allocateFrom n ids) = true
  | [], n => rfl
  | cid :: rest, n => by
    unfold allocateFrom contiguousFrom
    have harith : n + pairCountOf cid - 1 + 1 = n + pairCountOf cid := by ring
    simp only [beq_self_eq_true, Bool.true_and, harith]
    exact allocateFrom_contiguous rest (n + pairCountOf cid)

theorem allocateFrom_lb :
    ∀ (ids : List Str), (∀ cid ∈ ids, goodCount cid = true) →
    ∀ (n : Int), ∀ y ∈ allocateFrom n ids, n ≤ y.2.1
  | [], _, n, y, hy => absurd hy (by simp [allocateFrom])
  | cid :: rest, h, n, y, hy => by
    unfold allocateFrom at hy
    rcases List.mem_cons.mp hy with h1 | h1
    · subst h1
      exact le_refl n
    · have hk : 1 ≤ pairCountOf cid := goodCount_pos (h cid (by simp))
      have hrec := allocateFrom_lb rest (fun i hi => h i (by simp [hi]))
        (n + pairCountOf cid) y h1
      omega

theorem allocateFrom_pairwise :
    ∀ (ids : List Str), (∀ cid ∈ ids, goodCount cid = true) →
    ∀ (n : Int), List.Pairwise (fun x y => x.2.2 < y.2.1) (allocateFrom n ids)
  | [], _, _ => List.Pairwise.nil
  | cid :: rest, h, n => by
    unfold allocateFrom
    refine List.Pairwise.cons ?_
      (allocateFrom_pairwise rest (fun i hi => h i (by simp [hi])) _)
    intro y hy
    have hlb := allocateFrom_lb rest (fun i hi => h i (by simp [hi]))
      (n + pairCountOf cid) y hy
    have hk : 1 ≤ pairCountOf cid := goodCount_pos (h cid (by simp))
    dsimp only
    omega

theorem allocateFrom_lengths :
    ∀ (ids : List Str) (n : Int), ∀ y ∈ allocateFrom n ids,
      y.2.2 - y.2.1 + 1 = pairCountOf y.1
  | [], n, y, hy => absurd hy (by simp [allocateFrom])
  | cid :: rest, n, y, hy => by
    unfold allocateFrom at hy
    rcases List.mem_cons.mp hy with h1 | h1
    · subst h1
      dsimp only
      ring
    · exact allocateFrom_lengths rest _ y h1

theorem swapAdj_mem :
    ∀ (l : List Str) (i : Nat), ∀ x ∈ swapAdj l i, x ∈ l
  | [], i, x, hx => by simp [swapAdj] at hx
  | [a], i, x, hx => by
    cases i <;> simpa [swapAdj] using hx
  | a :: b :: rest, 0, x, hx => by
    simp only [swapAdj, List.mem_cons] at hx ⊢
    tauto
  | a :: b :: rest, Nat.succ j, x, hx => by
    unfold swapAdj at hx
    rcases List.mem_cons.mp hx with h | h
    · exact h ▸ List.mem_cons_self _ _
    · exact List.mem_cons_of_mem _ (swapAdj_mem (b :: rest) j x h)

theorem applyCircuitOp_mem (ids : List Str) (op : CircuitOp) :
    ∀ x ∈ applyCircuitOp ids op, x ∈ ids ∨ x ∈ opIds op := by
  intro x hx
  cases op with
  | add cid =>
    rcases List.mem_append.mp hx with h | h
    · exact Or.inl h
    · exact Or.inr h
  | delete i => exact Or.inl (List.mem_of_mem_eraseIdx hx)
  | moveUp i =>
    simp only [applyCircuitOp] at hx
    by_cases h : i = 0
    · rw [if_pos h] at hx
      exact Or.inl hx
    · rw [if_neg h] at hx
      exact Or.inl (swapAdj_mem ids (i - 1) x hx)
  | moveDown i => exact Or.inl (swapAdj_mem ids i x hx)
  | edit i cid =>
    rcases List.mem_or_eq_of_mem_set hx with h | h
    · exact Or.inl h
    · exact Or.inr (by simp [opIds, h])

theorem foldl_goodCount :
    ∀ (ops : List CircuitOp) (ids : List Str),
      (∀ cid ∈ ids, goodCount cid = true) →
      (∀ op ∈ ops, ∀ cid ∈ opIds op, goodCount cid = true) →
      ∀ cid ∈ ops.foldl applyCircuitOp ids, goodCount cid = true
  | [], ids, hids, _, cid, hid => hids cid hid
  | op :: rest, ids, hids, hops, cid, hid => by
    rw [List.foldl_cons] at hid
    refine foldl_goodCount rest (applyCircuitOp ids op) ?_
      (fun o ho => hops o (by simp [ho])) cid hid
    intro x hx
    rcases applyCircuitOp_mem ids op x hx with h | h
    · exact hids x h
    · exact hops op (by simp) x h

/-- C1 (position allocator modelled from the spec, the server routes
being outside the sources): starting from an empty cable, after any
sequence of add, delete, move and identifier-edit operations whose
identifiers all carry a positive derived pair count, the recomputed
allocation is a contiguous chain starting at pair 1 (each circuit's
`pairStart` is one past its predecessor's `pairEnd`), the physical
ranges are pairwise non-overlapping in position order, and every
range's length `pairEnd - pairStart + 1` equals the pair count derived
from that circuit's identifier by the repository's `parseCircuitId`. -/
theorem allocator_invariant (ops : List CircuitOp)
    (hgood : ∀ op ∈ ops, ∀ cid ∈ opIds op, goodCount cid = true) :
    contiguousFrom 1 (allocate (ops.foldl applyCircuitOp [])) = true ∧
    List.Pairwise (fun x y => x.2.2 < y.2.1)
      (allocate (ops.foldl applyCircuitOp [])) ∧
    ∀ entry ∈ allocate (ops.foldl applyCircuitOp []),
      entry.2.2 - entry.2.1 + 1 = pairCountOf entry.1 := by
  have hstate : ∀ cid ∈ ops.foldl applyCircuitOp [], goodCount cid = true :=
    foldl_goodCount ops [] (by simp) hgood
  exact ⟨allocateFrom_contiguous _ 1,
    allocateFrom_pairwise _ hstate 1,
    allocateFrom_lengths _ 1⟩

/-- Witness for C1: an add, add, move-down, edit, delete sequence whose
surviving circuit `"ks,219-228"` is allocated pairs 1 to 10. -/
theorem allocator_invariant_witness :
    (∀ op ∈ [CircuitOp.add ("pon,1-8".data), CircuitOp.add ("b,1-2".data),
        CircuitOp.moveDown 0, CircuitOp.edit 1 ("ks,219-228".data),
        CircuitOp.delete 0],
      ∀ cid ∈ opIds op, goodCount cid = true) ∧
    contiguousFrom 1 (allocate
      ([CircuitOp.add ("pon,1-8".data), CircuitOp.add ("b,1-2".data),
        CircuitOp.moveDown 0, CircuitOp.edit 1 ("ks,219-228".data),
        CircuitOp.delete 0].foldl applyCircuitOp [])) = true ∧
    List.Pairwise (fun x y => x.2.2 < y.2.1) (allocate
      ([CircuitOp.add ("pon,1-8".data), CircuitOp.add ("b,1-2".data),
        CircuitOp.moveDown 0, CircuitOp.edit 1 ("ks,219-228".data),
        CircuitOp.delete 0].foldl applyCircuitOp [])) ∧
    ∀ entry ∈ allocate
      ([CircuitOp.add ("pon,1-8".data), CircuitOp.add ("b,1-2".data),
        CircuitOp.moveDown 0, CircuitOp.edit 1 ("ks,219-228".data),
        CircuitOp.delete 0].foldl applyCircuitOp []),
      entry.2.2 - entry.2.1 + 1 = pairCountOf entry.1 :=
  ⟨by decide,
    (allocator_invariant _ (by decide)).1,
    (allocator_invariant _ (by decide)).2.1,
    (allocator_invariant _ (by decide)).2.2⟩

end Coppersplice
